import Mathlib

/-!
Verification development for the strict-LGTM review-consensus engine of the
robot-gitee-lgtm repository.  The Go sources are shallowly embedded: strings
are lists of characters, Go maps from string to bool are association lists
whose key set is what matters, the forge client is replaced by explicit
inputs (comment lists, changed-file lists, label state) and explicit effect
values (create/update comment, add/remove label).

Embedded files:
  - notification.go            : state codec (encode, decode, notification ops)
  - client adapters (part_001) : comment listing (stable sort by creation
                                 time), comment conversion, normalizeLogin
  - strict review (part_004)   : handleLGTM, handleLGTMCancel, isReviewer,
                                 resetReviewDir, canAddLgtmLabel,
                                 HandleStrictLGTMPREvent
  - robot.go                   : doWhat and the two command regexes
  - filepath.Dir / Clean       : the Go standard-library lexical path
                                 functions used by genDirs
-/

set_option maxRecDepth 20000

abbrev Str := List Char

/-! ## Generic string and map helpers -/

/-- Go `strings.Split(s, sep)` for a nonempty separator, written with a fuel
argument so that it is structurally recursive (the fuel is always at least
the length of the string, so it never runs out). -/
def splitOnFuel (sep : Str) : Nat → Str → List Str
  | 0, s => [s]
  | _ + 1, [] => [[]]
  | fuel + 1, c :: rest =>
    if sep.isPrefixOf (c :: rest) then
      [] :: splitOnFuel sep fuel (List.drop (sep.length - 1) rest)
    else
      match splitOnFuel sep fuel rest with
      | [] => [[c]]
      | h :: t => (c :: h) :: t

/-- Go `strings.Split(s, sep)` (nonempty `sep`): split around every
non-overlapping occurrence of `sep`, scanning left to right. -/
def splitOnSep (sep s : Str) : List Str :=
  splitOnFuel sep (s.length + 1) s

/-- Split a string at every newline character (Go `strings.Split(s, "\n")`,
and the line decomposition used by the `(?m)` regex flag). -/
def splitNl : Str → List Str
  | [] => [[]]
  | c :: rest =>
    if c = '\n' then [] :: splitNl rest
    else
      match splitNl rest with
      | [] => [[c]]
      | h :: t => (c :: h) :: t

/-- `List.intercalate`, kept under a local name mirroring `strings.Join`. -/
def joinSep (sep : Str) (parts : List Str) : Str :=
  List.intercalate sep parts

/-- Key membership in a Go `map[string]bool`, modelled on an association
list. -/
def hasKey (m : List (Str × Bool)) (k : Str) : Bool :=
  m.any (fun p => p.1 == k)

/-- Go map read `m[k]` returning presence and value. -/
def lookupKey : List (Str × Bool) → Str → Option Bool
  | [], _ => none
  | p :: rest, k => if p.1 == k then some p.2 else lookupKey rest k

/-- Go map write `m[k] = v`: overwrite an existing entry or append a new
one.  (Go maps are unordered; the list order is a deterministic choice and
no theorem below depends on it.) -/
def mapInsert (m : List (Str × Bool)) (k : Str) (v : Bool) : List (Str × Bool) :=
  if hasKey m k then m.map (fun p => if p.1 == k then (k, v) else p)
  else m ++ [(k, v)]

/-- Go `delete(m, k)`. -/
def mapErase (m : List (Str × Bool)) (k : Str) : List (Str × Bool) :=
  m.filter (fun p => !(p.1 == k))

/-- `strings.Trim(item, "**")`: remove all leading and trailing `*`
characters (the cutset of `Trim` is the set of its characters). -/
def trimStars (s : Str) : Str :=
  ((s.dropWhile (fun c => c == '*')).reverse.dropWhile (fun c => c == '*')).reverse

/-! ## The notification state (notification.go) -/

/-- The `notification` struct of notification.go: the review state persisted
in one bot-owned comment. -/
structure Notification where
  consentors : List (Str × Bool)
  opponents : List (Str × Bool)
  dirs : List Str
  treeHash : Str
  commentID : Nat
deriving DecidableEq, Repr

def Notification.ResetConsentor (n : Notification) : Notification :=
  { n with consentors := [] }

def Notification.ResetOpponents (n : Notification) : Notification :=
  { n with opponents := [] }

/-- `AddConsentor`: record an approver and delete them from the opponents
map if present. -/
def Notification.AddConsentor (n : Notification) (consentor : Str) (isReviewer : Bool) :
    Notification :=
  { n with consentors := mapInsert n.consentors consentor isReviewer,
           opponents := mapErase n.opponents consentor }

/-- `AddOpponent`: record an opposer and delete them from the consentors map
if present. -/
def Notification.AddOpponent (n : Notification) (opponent : Str) (isReviewer : Bool) :
    Notification :=
  { n with opponents := mapInsert n.opponents opponent isReviewer,
           consentors := mapErase n.consentors opponent }

def Notification.ResetDirs (n : Notification) (s : List Str) : Notification :=
  { n with dirs := s }

/-! ## The state codec: encoding (WriteComment body construction) -/

def consentientDesc : Str := ("**LGTM**").data
def opposedDesc : Str := ("**NOT LGTM**").data
def separator : Str := (", ").data
def dirSepa : Str := ("\n- ").data

def notifHead : Str := ("LGTM NOTIFIER: This PR is ").data
def notifMid1 : Str := (".\n\nReviewers added `/lgtm` are: ").data
def notifMid2 : Str := (".\n\nReviewers added `/lgtm cancel` are: ").data
def notifMid3 : Str := (".\n\nIt still needs review for the codes in each of these directoris:").data
def notifMid4 : Str := ("\n<details>Git tree hash: ").data
def notifTail : Str := ("</details>").data

/-- `reviewerToComment`: render an identity map as a comma-separated list,
bold-wrapping identities whose flag is true. -/
def reviewerToComment (r : List (Str × Bool)) (sep : Str) : Str :=
  joinSep sep (r.map (fun p =>
    if p.2 then ("**").data ++ p.1 ++ ("**").data else p.1))

/-- The pending-directories segment of the comment body: empty when there
are no dirs, otherwise the separator-prefixed joined list. -/
def dirsSegment (dirs : List Str) : Str :=
  if dirs.isEmpty then [] else dirSepa ++ joinSep dirSepa dirs

/-- The comment body built by `WriteComment`: the `notificationStr` format
string instantiated with verdict, consentor list, opponent list, pending
directories and tree hash. -/
def notificationBody (n : Notification) (ok : Bool) : Str :=
  notifHead ++ (if ok then consentientDesc else opposedDesc)
    ++ notifMid1 ++ reviewerToComment n.consentors separator
    ++ notifMid2 ++ reviewerToComment n.opponents separator
    ++ notifMid3 ++ dirsSegment n.dirs
    ++ notifMid4 ++ n.treeHash ++ notifTail

/-! ## The state codec: decoding (the `notificationStrRe` template match)

The Go regex is `notificationStr` with the five `%s` slots replaced by
`(.*)`, `(.*)`, `(.*)`, `([\s\S]*)`, `(.*)` and matched with
`FindStringSubmatch` (leftmost match, greedy groups).  Because `(.*)` cannot
cross a newline and each of the first three groups is followed by one
arbitrary character and then a literal `\n\n`, the first three groups are
forced to be their whole line minus its last character.  The fourth group
`[\s\S]*` is greedy, so it extends to the last occurrence of the literal
`\n<details>Git tree hash: `; the fifth group is the part of the following
line before the last occurrence of `</details>` on it. -/

/-- Split at the first newline: `(line, rest-after-newline)`. -/
def breakNl : Str → Option (Str × Str)
  | [] => none
  | c :: rest =>
    if c = '\n' then some ([], rest)
    else
      match breakNl rest with
      | none => none
      | some (a, b) => some (c :: a, b)

/-- Remove a literal from the front of a string, or fail. -/
def stripLead (pat s : Str) : Option Str :=
  if pat.isPrefixOf s then some (s.drop pat.length) else none

/-- All indices at which `pat` occurs in `s`. -/
def occIdxs (pat s : Str) : List Nat :=
  (List.range (s.length + 1)).filter (fun i => pat.isPrefixOf (s.drop i))

/-- Split around the last occurrence of `pat` (greedy-group semantics). -/
def splitLastOcc (pat s : Str) : Option (Str × Str) :=
  match (occIdxs pat s).getLast? with
  | none => none
  | some i => some (s.take i, s.drop (i + pat.length))

/-- Match the template starting just after the `LGTM NOTIFIER: This PR is `
literal, returning the five capture groups. -/
def parseAfterHead (r : Str) : Option (Str × Str × Str × Str × Str) :=
  match breakNl r with
  | none => none
  | some (line1, r1) =>
    if line1.isEmpty then none else
    match stripLead (("\nReviewers added `/lgtm` are: ").data) r1 with
    | none => none
    | some r2 =>
      match breakNl r2 with
      | none => none
      | some (line2, r3) =>
        if line2.isEmpty then none else
        match stripLead (("\nReviewers added `/lgtm cancel` are: ").data) r3 with
        | none => none
        | some r4 =>
          match breakNl r4 with
          | none => none
          | some (line3, r5) =>
            if line3.isEmpty then none else
            match stripLead (("\nIt still needs review for the codes in each of these directoris:").data) r5 with
            | none => none
            | some r6 =>
              match splitLastOcc notifMid4 r6 with
              | none => none
              | some (g4, r7) =>
                match splitLastOcc notifTail (r7.takeWhile (fun c => !(c == '\n'))) with
                | none => none
                | some (g5, _) =>
                  some (line1.dropLast, line2.dropLast, line3.dropLast, g4, g5)

/-- `notificationStrRe.FindStringSubmatch(body)`: try the template at each
occurrence of the head literal, leftmost first. -/
def parseNotification (body : Str) : Option (Str × Str × Str × Str × Str) :=
  (occIdxs notifHead body).findSome?
    (fun i => parseAfterHead (body.drop (i + notifHead.length)))

/-- `commentToReviewer`: split a rendered list on `", "` and rebuild the
identity map, reading the bold markers back into the boolean flag. -/
def commentToReviewer (s sep : Str) : List (Str × Bool) :=
  if s.isEmpty then []
  else
    (splitOnSep sep s).foldl
      (fun m item =>
        mapInsert m (trimStars item) (!(item == trimStars item)))
      []

/-- The `split` helper of `LoadLGTMnotification`: `nil` for the empty
string, `strings.Split` otherwise. -/
def splitDirsField (s : Str) : List Str :=
  if s.isEmpty then [] else splitOnSep dirSepa s

/-! ## Forge comments and the listing adapter (ghClient, part_001) -/

/-- The fields of `sdk.PullRequestComments` that the adapter reads (plus the
`updated` timestamp, which the adapter *drops*).  Timestamps are modelled as
naturals ordered like the parsed RFC3339 times. -/
structure RawComment where
  id : Nat
  body : Str
  user : Str
  createdAt : Nat
  updatedAt : Nat
deriving DecidableEq, Repr

/-- The local `issueComment` struct (note: it has no updated-at field). -/
structure IssueComment where
  id : Nat
  body : Str
  user : Str
  createdAt : Nat
deriving DecidableEq, Repr

/-- `convertPRComment`: keep id, body, author login and creation time. -/
def convertPRComment (c : RawComment) : IssueComment :=
  { id := c.id, body := c.body, user := c.user, createdAt := c.createdAt }

/-- Insert into a list sorted by the strict order `lt`, after every element
strictly smaller (the behaviour of a stable sort on ties). -/
def insertByCreated (lt : IssueComment → IssueComment → Bool) (a : IssueComment) :
    List IssueComment → List IssueComment
  | [] => [a]
  | b :: t => if lt b a then b :: insertByCreated lt a t else a :: b :: t

/-- Stable insertion sort; `sort.SliceStable` with the same strict
comparison produces exactly this list (the unique stable sort). -/
def stableSortByCreated (lt : IssueComment → IssueComment → Bool) :
    List IssueComment → List IssueComment
  | [] => []
  | a :: t => insertByCreated lt a (stableSortByCreated lt t)

/-- The comparison of `ListIssueComments`: `CreatedAt.Before`, i.e. strict
less-than on creation times. -/
def createdBefore (a b : IssueComment) : Bool :=
  decide (a.createdAt < b.createdAt)

/-- `ghClient.ListIssueComments`: convert every raw comment and stable-sort
by creation time, oldest first. -/
def listIssueComments (raw : List RawComment) : List IssueComment :=
  stableSortByCreated createdBefore (raw.map convertPRComment)

/-- `normalizeLogin` as written in the source: it discards its argument and
returns the empty string. -/
def normalizeLogin (_ : Str) : Str :=
  []

/-! ## LoadLGTMnotification -/

/-- The scan loop of `LoadLGTMnotification`: find the first comment (in the
listed, oldest-first order) authored by the bot whose body matches the
template, returning its id and the captured consentor, opponent, dirs and
tree-hash fields. -/
def scanComments (botname : Str) : List IssueComment → Option (Nat × Str × Str × Str × Str)
  | [] => none
  | c :: rest =>
    if c.user == botname then
      match parseNotification c.body with
      | some (_, g2, g3, g4, g5) => some (c.id, g2, g3, g4, g5)
      | none => scanComments botname rest
    else scanComments botname rest

/-! ## Go filepath.Dir / filepath.Clean and genDirs -/

/-- One step of the lexical cleaning of `filepath.Clean`, processing one
path component against the stack of output components (stored reversed). -/
def cleanPush (rooted : Bool) (acc : List Str) (c : Str) : List Str :=
  if c.isEmpty || c == (".").data then acc
  else if c == ("..").data then
    match acc with
    | [] => if rooted then [] else [c]
    | a :: rest => if a == ("..").data then c :: a :: rest else rest
  else c :: acc

/-- Split a string at every occurrence of a single character. -/
def splitChar (sep : Char) : Str → List Str
  | [] => [[]]
  | c :: rest =>
    if c = sep then [] :: splitChar sep rest
    else
      match splitChar sep rest with
      | [] => [[c]]
      | h :: t => (c :: h) :: t

/-- `filepath.Clean` for slash-separated paths. -/
def cleanPath (s : Str) : Str :=
  if s.isEmpty then (".").data
  else
    let rooted := s.headI = '/'
    let comps := splitChar '/' s
    let out1 := joinSep (("/").data) ((comps.foldl (cleanPush rooted) []).reverse)
    let out2 := if rooted then '/' :: out1 else out1
    if out2.isEmpty then (".").data else out2

/-- `filepath.Dir`: everything up to and including the final slash, then
cleaned; a path with no slash has directory `.`. -/
def dirOf (p : Str) : Str :=
  cleanPath ((p.reverse.dropWhile (fun c => !(c == '/'))).reverse)

/-- Deduplicating accumulation, modelling the key set of a Go map built by
repeated insertion. -/
def dedupKeep (l : List Str) : List Str :=
  l.foldl (fun acc d => if acc.contains d then acc else acc ++ [d]) []

/-- `genDirs`: the set of directories of the given file names, with the
`.` entry replaced by the literal `root directory`. -/
def genDirs (filenames : List Str) : List Str :=
  let ds := dedupKeep (filenames.map dirOf)
  if ds.contains ((".").data) then
    (ds.filter (fun d => !(d == (".").data)))
      ++ (if ds.contains (("root directory").data) then [] else [("root directory").data])
  else ds

/-- `LoadLGTMnotification`.  Inputs that the Go function fetches through the
client (bot name, comment list, changed files) are passed explicitly; the
requested tree hash is `sha`.  Returns the notification and the `prChanged`
flag (true when the state had to be rebuilt from the changed-file set). -/
def loadLGTMnotification (botname : Str) (raw : List RawComment) (sha : Str)
    (changedFiles : List Str) : Notification × Bool :=
  match scanComments botname (listIssueComments raw) with
  | some (cid, g2, g3, g4, g5) =>
    if g5 == sha then
      ({ consentors := commentToReviewer g2 separator,
         opponents := commentToReviewer g3 separator,
         dirs := splitDirsField g4,
         treeHash := sha, commentID := cid }, false)
    else
      ({ consentors := [], opponents := [], dirs := genDirs changedFiles,
         treeHash := sha, commentID := cid }, true)
  | none =>
    ({ consentors := [], opponents := [], dirs := genDirs changedFiles,
       treeHash := sha, commentID := 0 }, true)

/-! ## Side effects of the handlers -/

/-- The forge operations the strict handlers perform, in order. -/
inductive Effect where
  | createComment (body : Str)
  | updateComment (id : Nat) (body : Str)
  | addLabel
  | removeLabel
deriving DecidableEq, Repr

/-- `notification.WriteComment`: create a new comment when no comment id is
carried, otherwise update the carried comment. -/
def writeCommentEffect (n : Notification) (ok : Bool) : Effect :=
  if n.commentID = 0 then Effect.createComment (notificationBody n ok)
  else Effect.updateComment n.commentID (notificationBody n ok)

/-! ## The strict review handlers (part_004) -/

/-- `isReviewer`: normalize the commenter login and test membership in any
path's authorized set.  A `map[string]sets.String` is an association list
from file name to identity list (set semantics). -/
def isReviewer (validReviewers : List (Str × List Str)) (commenter : Str) : Bool :=
  validReviewers.any (fun p => p.2.contains (normalizeLogin commenter))

/-- `resetReviewDir`: keep a path pending iff its authorized set has none of
the normalized logins of the consentors recorded with a true flag; rebuild
the dirs from the pending paths (nil when none are pending). -/
def resetReviewDir (validReviewers : List (Str × List Str)) (n : Notification) :
    Notification :=
  let reviewers := (n.consentors.filter (fun p => p.2)).map (fun p => normalizeLogin p.1)
  let needReview := (validReviewers.filter
    (fun p => !(p.2.any (fun r => reviewers.contains r)))).map (fun p => p.1)
  if !needReview.isEmpty then n.ResetDirs (genDirs needReview)
  else n.ResetDirs []

/-- `canAddLgtmLabel`: no opponent with a true flag and no pending dirs. -/
def canAddLgtmLabel (n : Notification) : Bool :=
  !(n.opponents.any (fun p => p.2)) && n.dirs.isEmpty

/-- The fixed refusal response of `handleLGTM`. -/
def selfLgtmResponse : Str := ("you cannot LGTM your own PR.").data

/-- Modelled from the spec: `giteeclient.GenResponseWithReference` is an
external formatting helper (outside this repository) that wraps a response
text with a reference to the triggering comment; only the response text is
fixed by the engine, so it is modelled as carrying the response through. -/
def genResponseWithReference (resp : Str) : Str :=
  resp

/-- `strictReview.handleLGTM`: apply an approve command.  Returns the final
notification value and the ordered list of forge effects. -/
def handleLGTM (prAuthor commenter : Str) (validReviewers : List (Str × List Str))
    (noti : Notification) (hasLabel : Bool) : Notification × List Effect :=
  if commenter == prAuthor then
    (noti, [Effect.createComment (genResponseWithReference selfLgtmResponse)])
  else if (lookupKey noti.consentors commenter).isSome then
    (noti, [])
  else
    let ok := isReviewer validReviewers commenter
    let n1 := noti.AddConsentor commenter ok
    if !ok then
      (n1, [writeCommentEffect n1 hasLabel])
    else
      let n2 := resetReviewDir validReviewers n1
      let ok2 := canAddLgtmLabel n2
      (n2, writeCommentEffect n2 ok2 ::
        (if ok2 && !hasLabel then [Effect.addLabel]
         else if !ok2 && hasLabel then [Effect.removeLabel]
         else []))

/-- `strictReview.handleLGTMCancel`: apply a cancel command. -/
def handleLGTMCancel (prAuthor commenter : Str) (validReviewers : List (Str × List Str))
    (noti : Notification) (hasLabel : Bool) : Notification × List Effect :=
  if !(commenter == prAuthor) && !(isReviewer validReviewers commenter) then
    let n1 := noti.AddOpponent commenter false
    (n1, [writeCommentEffect n1 hasLabel])
  else
    let n1 :=
      if commenter == prAuthor then (noti.ResetConsentor).ResetOpponents
      else noti.AddOpponent commenter true
    let n2 := n1.ResetDirs (genDirs (validReviewers.map (fun p => p.1)))
    (n2, writeCommentEffect n2 false ::
      (if hasLabel then [Effect.removeLabel] else []))

/-! ## The PR event handler (HandleStrictLGTMPREvent) -/

inductive PRAction where
  | opened
  | changedSourceBranch
  | other
deriving DecidableEq, Repr

/-- `HandleStrictLGTMPREvent`: on open, post a fresh not-LGTM notification;
on a source-branch change, reload the notification against the new tree
hash and, only when the state had to be rebuilt, rewrite the comment with a
false verdict and remove the label. -/
def handleStrictLGTMPREvent (action : PRAction) (botname : Str)
    (raw : List RawComment) (sha : Str) (changedFiles : List Str) : List Effect :=
  match action with
  | PRAction.opened =>
    let n : Notification :=
      { consentors := [], opponents := [], dirs := genDirs changedFiles,
        treeHash := sha, commentID := 0 }
    [writeCommentEffect n false]
  | PRAction.changedSourceBranch =>
    let (n, prChanged) := loadLGTMnotification botname raw sha changedFiles
    if !prChanged then []
    else [writeCommentEffect n false, Effect.removeLabel]
  | PRAction.other => []

/-! ## Command classification (robot.go: LGTMRe, LGTMCancelRe, doWhat)

`LGTMRe` is `(?mi)^/lgtm(?: no-issue)?\s*$` and `LGTMCancelRe` is
`(?mi)^/lgtm cancel\s*$`.  With the `m` flag a match anchors at any line
start; `\s` is `[\t\n\f\r ]`.  Since the literal part of each pattern
contains no newline, the pattern matches the body iff some newline-separated
line consists of the literal (case-folded) followed only by whitespace:
whatever `\s*` consumes past the end of that line only ever ends at a later
newline or at the end of the string, and then `$` already matched at the end
of the line itself. -/

/-- Go `\s`. -/
def goWs (c : Char) : Bool :=
  c == ' ' || c == '\t' || c == '\n' || c == '\r' || c == '\u000c'

/-- The case folding that the `i` flag applies to the letters occurring in
the patterns: ASCII upper case folds to lower case, and the long s (U+017F)
folds with `s` (the only non-ASCII character that simple-folds onto a letter
of the patterns). -/
def lowerFold (c : Char) : Char :=
  if 'A' ≤ c && c ≤ 'Z' then Char.ofNat (c.toNat + 32)
  else if c = 'ſ' then 's'
  else c

/-- Match one line against a (lower-case) literal followed by `\s*$`. -/
def matchCmdLine (cmd : Str) (l : Str) : Bool :=
  match cmd, l with
  | [], rest => rest.all goWs
  | _ :: _, [] => false
  | p :: ps, d :: ds => lowerFold d == p && matchCmdLine ps ds

/-- `LGTMRe.MatchString`. -/
def lgtmReMatch (body : Str) : Bool :=
  (splitNl body).any (fun l =>
    matchCmdLine (("/lgtm").data) l || matchCmdLine (("/lgtm no-issue").data) l)

/-- `LGTMCancelRe.MatchString`. -/
def lgtmCancelReMatch (body : Str) : Bool :=
  (splitNl body).any (fun l => matchCmdLine (("/lgtm cancel").data) l)

/-- `doWhat`: `(toAdd, toRemove)`. -/
def doWhat (comment : Str) : Bool × Bool :=
  if lgtmReMatch comment then (true, false)
  else if lgtmCancelReMatch comment then (false, true)
  else (false, false)

/-! ## The notification-map event language (for the mutual-exclusion law) -/

/-- The four operations of notification.go that touch the two identity
maps. -/
inductive NotiOp where
  | addCon (id : Str) (flag : Bool)
  | addOpp (id : Str) (flag : Bool)
  | resetCon
  | resetOpp
deriving DecidableEq, Repr

def applyNotiOp (n : Notification) : NotiOp → Notification
  | NotiOp.addCon i b => n.AddConsentor i b
  | NotiOp.addOpp i b => n.AddOpponent i b
  | NotiOp.resetCon => n.ResetConsentor
  | NotiOp.resetOpp => n.ResetOpponents

def applyNotiOps (n : Notification) (ops : List NotiOp) : Notification :=
  ops.foldl applyNotiOp n

/-- No identity appears in both the consentors and the opponents map. -/
def exclusiveMaps (n : Notification) : Prop :=
  ∀ k, ¬(hasKey n.consentors k = true ∧ hasKey n.opponents k = true)

/-! ## Spec-side formulations used to state refinements -/

/-- Remove trailing whitespace (the Go `\s` class). -/
def dropTrailWs (l : Str) : Str :=
  (l.reverse.dropWhile goWs).reverse

/-- The removed trailing-whitespace suffix. -/
def wsSuffixOf (l : Str) : Str :=
  (l.reverse.takeWhile goWs).reverse

/-- Remove whitespace at both ends. -/
def fullTrimWs (l : Str) : Str :=
  dropTrailWs (l.dropWhile goWs)

/-- The spec reading of one command line: after removing trailing
whitespace and case-folding, the line is exactly the command literal. -/
def lineIsCmd (cmd l : Str) : Prop :=
  (dropTrailWs l).map lowerFold = cmd

/-- A listed comment that the locator accepts: authored by the bot and
matching the notification template. -/
def matchesNoti (botname : Str) (c : IssueComment) : Bool :=
  c.user == botname && (parseNotification c.body).isSome

/-! ## Concrete instances used by the closed theorems -/

/-- A reachable state: the dirs are exactly `genDirs ["a/x.go"]`, as built
on PR open, with one plain and one authorized consentor recorded. -/
def aliceBobState : Notification :=
  { consentors := [(("alice").data, false), (("bob").data, true)],
    opponents := [], dirs := [("a").data], treeHash := ("t1").data, commentID := 0 }

/-- A bot-authored status comment persisting `aliceBobState`. -/
def botComment1 : RawComment :=
  { id := 7, body := notificationBody aliceBobState true, user := ("bot").data,
    createdAt := 1, updatedAt := 1 }

def stateT1 : Notification :=
  { consentors := [], opponents := [], dirs := [], treeHash := ("t1").data, commentID := 0 }

def stateT2 : Notification :=
  { consentors := [], opponents := [], dirs := [], treeHash := ("t2").data, commentID := 0 }

/-- An old bot status comment that was edited after being posted (its
updated timestamp differs from its created timestamp). -/
def editedOldComment : RawComment :=
  { id := 7, body := notificationBody stateT1 true, user := ("bot").data,
    createdAt := 1, updatedAt := 5 }

/-- A newer, never-edited bot status comment. -/
def cleanNewComment : RawComment :=
  { id := 9, body := notificationBody stateT2 true, user := ("bot").data,
    createdAt := 2, updatedAt := 2 }

/-- Two changed paths: `b/y.go` owned by the empty login (which is what
`normalizeLogin` maps every commenter to) and `a/x.go` owned by alice. -/
def vrTwoPaths : List (Str × List Str) :=
  [(("b/y.go").data, [[]]), (("a/x.go").data, [("alice").data])]

/-- The fresh state for the two changed paths of `vrTwoPaths`. -/
def freshTwoPathState : Notification :=
  { consentors := [], opponents := [],
    dirs := genDirs [("b/y.go").data, ("a/x.go").data],
    treeHash := ("t1").data, commentID := 0 }

/-! ## Association-map lemmas -/

theorem hasKey_iff (m : List (Str × Bool)) (k : Str) :
    hasKey m k = true ↔ ∃ p ∈ m, p.1 = k := by
  simp [hasKey, List.any_eq_true]

theorem hasKey_mapInsert_iff (m : List (Str × Bool)) (k : Str) (v : Bool) (q : Str) :
    hasKey (mapInsert m k v) q = true ↔ (hasKey m q = true ∨ q = k) := by
  by_cases hmk : hasKey m k = true
  · have hmap : mapInsert m k v = m.map (fun p => if p.1 == k then (k, v) else p) := by
      simp [mapInsert, hmk]
    rw [hmap, hasKey_iff, hasKey_iff]
    constructor
    · rintro ⟨p, hpmem, hp⟩
      rcases List.mem_map.1 hpmem with ⟨r, hr, hrp⟩
      by_cases hrk : r.1 = k
      · right
        rw [← hp, ← hrp]
        simp [hrk]
      · left
        refine ⟨r, hr, ?_⟩
        rw [← hp, ← hrp]
        simp [hrk]
    · rintro (⟨p, hp, hpq⟩ | hqk)
      · by_cases hpk : p.1 = k
        · exact ⟨(k, v), List.mem_map.2 ⟨p, hp, by simp [hpk]⟩, by rw [← hpq, hpk]⟩
        · exact ⟨p, List.mem_map.2 ⟨p, hp, by simp [hpk]⟩, hpq⟩
      · rw [hqk]
        rcases (hasKey_iff m k).1 hmk with ⟨p, hp, hpk⟩
        exact ⟨(k, v), List.mem_map.2 ⟨p, hp, by simp [hpk]⟩, rfl⟩
  · have hmap : mapInsert m k v = m ++ [(k, v)] := by
      simp [mapInsert, hmk]
    rw [hmap, hasKey_iff, hasKey_iff]
    constructor
    · rintro ⟨p, hpmem, hp⟩
      rcases List.mem_append.1 hpmem with hpm | hps
      · exact Or.inl ⟨p, hpm, hp⟩
      · right
        have hpkv : p = (k, v) := by simpa using hps
        rw [← hp, hpkv]
    · rintro (⟨p, hp, hpq⟩ | hqk)
      · exact ⟨p, List.mem_append.2 (Or.inl hp), hpq⟩
      · rw [hqk]
        exact ⟨(k, v), List.mem_append.2 (Or.inr (by simp)), rfl⟩

theorem hasKey_mapErase_iff (m : List (Str × Bool)) (k q : Str) :
    hasKey (mapErase m k) q = true ↔ (hasKey m q = true ∧ ¬ q = k) := by
  simp only [mapErase, hasKey_iff, List.mem_filter, Bool.not_eq_eq_eq_not, Bool.not_true,
    beq_eq_false_iff_ne]
  constructor
  · rintro ⟨p, ⟨hp, hpk⟩, hpq⟩
    exact ⟨⟨p, hp, hpq⟩, by rw [← hpq]; exact hpk⟩
  · rintro ⟨⟨p, hp, hpq⟩, hqk⟩
    exact ⟨p, ⟨hp, by rw [hpq]; exact hqk⟩, hpq⟩

theorem lookupKey_append_self (m : List (Str × Bool)) (k : Str) (v : Bool)
    (h : hasKey m k = false) : lookupKey (m ++ [(k, v)]) k = some v := by
  induction m with
  | nil => simp [lookupKey]
  | cons p rest ih =>
    simp only [hasKey, List.any_cons, Bool.or_eq_false_iff] at h
    simpa [lookupKey, h.1] using ih (by simp [hasKey, h.2])

theorem lookupKey_mapReplace_self (m : List (Str × Bool)) (k : Str) (v : Bool)
    (h : hasKey m k = true) :
    lookupKey (m.map (fun p => if p.1 == k then (k, v) else p)) k = some v := by
  induction m with
  | nil => simp [hasKey] at h
  | cons p rest ih =>
    by_cases hpk : p.1 = k
    · simp [lookupKey, hpk]
    · have h2 : hasKey rest k = true := by
        simpa [hasKey, hpk] using h
      simpa [lookupKey, hpk] using ih h2

theorem lookupKey_mapInsert_self (m : List (Str × Bool)) (k : Str) (v : Bool) :
    lookupKey (mapInsert m k v) k = some v := by
  unfold mapInsert
  by_cases hmk : hasKey m k
  · simpa [hmk] using lookupKey_mapReplace_self m k v hmk
  · simp only [hmk, if_false]
    exact lookupKey_append_self m k v (by simpa using hmk)

/-! ## Mutual exclusion of the two identity maps -/

theorem exclusive_applyNotiOp (n : Notification) (op : NotiOp)
    (h : exclusiveMaps n) : exclusiveMaps (applyNotiOp n op) := by
  cases op with
  | addCon i b =>
    intro k ⟨hc, ho⟩
    rcases (hasKey_mapErase_iff n.opponents i k).1 ho with ⟨ho2, hki⟩
    rcases (hasKey_mapInsert_iff n.consentors i b k).1 hc with hc2 | rfl
    · exact h k ⟨hc2, ho2⟩
    · exact hki rfl
  | addOpp i b =>
    intro k ⟨hc, ho⟩
    rcases (hasKey_mapErase_iff n.consentors i k).1 hc with ⟨hc2, hki⟩
    rcases (hasKey_mapInsert_iff n.opponents i b k).1 ho with ho2 | rfl
    · exact h k ⟨hc2, ho2⟩
    · exact hki rfl
  | resetCon =>
    intro k hk
    rcases hk with ⟨hc, _⟩
    rcases (hasKey_iff _ _).1 hc with ⟨p, hp, _⟩
    exact absurd hp (List.not_mem_nil p)
  | resetOpp =>
    intro k hk
    rcases hk with ⟨_, ho⟩
    rcases (hasKey_iff _ _).1 ho with ⟨p, hp, _⟩
    exact absurd hp (List.not_mem_nil p)

/-- C5: after any sequence of AddConsentor, AddOpponent, ResetConsentor and
ResetOpponents operations on a notification state in which no identity
starts in both maps, no identity appears simultaneously in the consentors
map and the opponents map. -/
theorem c5_mutual_exclusion (n : Notification) (ops : List NotiOp)
    (h : exclusiveMaps n) : exclusiveMaps (applyNotiOps n ops) := by
  induction ops generalizing n with
  | nil => exact h
  | cons op rest ih => exact ih (applyNotiOp n op) (exclusive_applyNotiOp n op h)

theorem c5_mutual_exclusion_witness :
    exclusiveMaps (applyNotiOps
      { consentors := [], opponents := [], dirs := [], treeHash := [], commentID := 0 }
      [NotiOp.addCon (("alice").data) true, NotiOp.addOpp (("alice").data) false,
       NotiOp.addCon (("bob").data) true]) :=
  c5_mutual_exclusion _ _ (by
    intro k hk
    rcases hk with ⟨hc, _⟩
    simp [hasKey] at hc)

/-- C8: an approve command whose actor equals the PR author leaves the
consentors map, the opponents map, the pending dirs and the label untouched;
the only side effect is posting the fixed refusal comment. -/
theorem c8_self_approval (prAuthor commenter : Str)
    (validReviewers : List (Str × List Str)) (noti : Notification) (hasLabel : Bool)
    (h : commenter = prAuthor) :
    handleLGTM prAuthor commenter validReviewers noti hasLabel
      = (noti, [Effect.createComment (genResponseWithReference selfLgtmResponse)]) := by
  subst h
  simp [handleLGTM]

theorem c8_self_approval_witness :
    handleLGTM (("root").data) (("root").data) vrTwoPaths freshTwoPathState false
      = (freshTwoPathState,
         [Effect.createComment (genResponseWithReference selfLgtmResponse)]) :=
  c8_self_approval (("root").data) (("root").data) vrTwoPaths freshTwoPathState false rfl

/-- C4: the code does not classify an identity listed by the OWNERS data for
a changed path as an authorized reviewer.  With the single changed path
`a/x.go` whose authorized set is exactly `{alice}`, the commenter `alice`
belongs to the union of the authorized sets, yet `isReviewer` returns
false, because `normalizeLogin` maps every login to the empty string. -/
theorem c4_owners_listed_commenter_rejected :
    isReviewer [(("a/x.go").data, [("alice").data])] (("alice").data) = false
    ∧ [(("a/x.go").data, [("alice").data])].any
        (fun p => p.2.contains (("alice").data)) = true := by
  decide

/-- C2: divergence of the pending-path recomputation after an authorized
approve.  The commenter `alice` passes the code's `isReviewer` test (via
`vrTwoPaths`, whose path `b/y.go` lists the empty login) and is recorded
with flag true, yet afterwards the pending dirs are `[a]`: the path
`a/x.go`, whose authorized set contains the recorded consentor `alice`,
stays pending, while `b/y.go`, whose set contains no recorded consentor, is
dropped — the opposite of the claimed pending rule, because the
recomputation compares authorized sets against `normalizeLogin` of the
consentors, which is always the empty string. -/
theorem c2_pending_recompute_diverges :
    isReviewer vrTwoPaths (("alice").data) = true
    ∧ (handleLGTM (("root").data) (("alice").data) vrTwoPaths freshTwoPathState false).1.consentors
        = [(("alice").data, true)]
    ∧ (handleLGTM (("root").data) (("alice").data) vrTwoPaths freshTwoPathState false).1.dirs
        = [("a").data]
    ∧ (handleLGTM (("root").data) (("alice").data) vrTwoPaths freshTwoPathState false).2.contains
        Effect.addLabel = false := by
  decide

/-! ## Helper facts about rendering and write effects -/

theorem notificationBody_false_verdict (n : Notification) :
    ∃ t, notificationBody n false = notifHead ++ (opposedDesc ++ t) :=
  ⟨notifMid1 ++ reviewerToComment n.consentors separator
      ++ notifMid2 ++ reviewerToComment n.opponents separator
      ++ notifMid3 ++ dirsSegment n.dirs
      ++ notifMid4 ++ n.treeHash ++ notifTail, by
    simp [notificationBody, List.append_assoc]⟩

theorem writeCommentEffect_ne_removeLabel (n : Notification) (ok : Bool) :
    ¬ writeCommentEffect n ok = Effect.removeLabel := by
  unfold writeCommentEffect
  by_cases h : n.commentID = 0 <;> simp [h]

/-- C6: a cancel command by a commenter who is not the PR author and passes
the code's authorized-reviewer test records the commenter as an opponent
with flag true, rebuilds the pending dirs from every changed path, emits
the status comment with the false (`NOT LGTM`) verdict, and removes the
label exactly when it was present. -/
theorem c6_reviewer_cancel (prAuthor commenter : Str)
    (validReviewers : List (Str × List Str)) (noti : Notification) (hasLabel : Bool)
    (hne : ¬ commenter = prAuthor)
    (hrev : isReviewer validReviewers commenter = true) :
    lookupKey (handleLGTMCancel prAuthor commenter validReviewers noti hasLabel).1.opponents
        commenter = some true
    ∧ (handleLGTMCancel prAuthor commenter validReviewers noti hasLabel).1.dirs
        = genDirs (validReviewers.map (fun p => p.1))
    ∧ (handleLGTMCancel prAuthor commenter validReviewers noti hasLabel).2
        = writeCommentEffect
            (handleLGTMCancel prAuthor commenter validReviewers noti hasLabel).1 false
          :: (if hasLabel then [Effect.removeLabel] else [])
    ∧ (Effect.removeLabel ∈ (handleLGTMCancel prAuthor commenter validReviewers noti hasLabel).2
        ↔ hasLabel = true)
    ∧ (∃ t, notificationBody (handleLGTMCancel prAuthor commenter validReviewers noti hasLabel).1 false
        = notifHead ++ (opposedDesc ++ t)) := by
  have hbeq : (commenter == prAuthor) = false := by
    simpa using hne
  have hred : handleLGTMCancel prAuthor commenter validReviewers noti hasLabel
      = ((noti.AddOpponent commenter true).ResetDirs
          (genDirs (validReviewers.map (fun p => p.1))),
         writeCommentEffect
           ((noti.AddOpponent commenter true).ResetDirs
             (genDirs (validReviewers.map (fun p => p.1)))) false
         :: (if hasLabel then [Effect.removeLabel] else [])) := by
    simp [handleLGTMCancel, hbeq, hrev]
  refine ⟨?_, ?_, ?_, ?_, ?_⟩
  · rw [hred]
    exact lookupKey_mapInsert_self noti.opponents commenter true
  · rw [hred]
    rfl
  · rw [hred]
  · rw [hred]
    cases hasLabel with
    | true => simp
    | false =>
      simp only [if_false, Bool.false_eq_true, iff_false, List.mem_cons,
        List.not_mem_nil, or_false]
      exact fun hh => writeCommentEffect_ne_removeLabel _ _ hh.symm
  · rw [hred]
    exact notificationBody_false_verdict _

theorem c6_reviewer_cancel_witness :
    lookupKey (handleLGTMCancel (("root").data) (("bob").data)
        [(("a/x.go").data, [[]])] stateT1 true).1.opponents (("bob").data) = some true
    ∧ (handleLGTMCancel (("root").data) (("bob").data)
        [(("a/x.go").data, [[]])] stateT1 true).1.dirs
        = genDirs ([(("a/x.go").data, ([[]] : List Str))].map (fun p => p.1))
    ∧ (handleLGTMCancel (("root").data) (("bob").data)
        [(("a/x.go").data, [[]])] stateT1 true).2
        = writeCommentEffect (handleLGTMCancel (("root").data) (("bob").data)
            [(("a/x.go").data, [[]])] stateT1 true).1 false
          :: (if true then [Effect.removeLabel] else [])
    ∧ (Effect.removeLabel ∈ (handleLGTMCancel (("root").data) (("bob").data)
        [(("a/x.go").data, [[]])] stateT1 true).2 ↔ true = true)
    ∧ (∃ t, notificationBody (handleLGTMCancel (("root").data) (("bob").data)
        [(("a/x.go").data, [[]])] stateT1 true).1 false
        = notifHead ++ (opposedDesc ++ t)) :=
  c6_reviewer_cancel (("root").data) (("bob").data) [(("a/x.go").data, [[]])]
    stateT1 true (by decide) (by decide)

/-- C7: on a synchronize event, when a bot status comment matching the
template was located with stored fingerprint `g5`: if `g5` equals the new
tree hash, no effect is emitted (notification and label untouched); if it
differs, the consentors and opponents are discarded, the dirs are rebuilt
from the full changed-file set, the comment is rewritten with the false
verdict and the label is removed. -/
theorem c7_synchronize_staleness (botname : Str) (raw : List RawComment) (sha : Str)
    (files : List Str) (cid : Nat) (g2 g3 g4 g5 : Str)
    (h : scanComments botname (listIssueComments raw) = some (cid, g2, g3, g4, g5)) :
    (g5 = sha →
      handleStrictLGTMPREvent PRAction.changedSourceBranch botname raw sha files = [])
    ∧ (¬ g5 = sha →
      handleStrictLGTMPREvent PRAction.changedSourceBranch botname raw sha files
        = [writeCommentEffect
            { consentors := [], opponents := [], dirs := genDirs files,
              treeHash := sha, commentID := cid } false,
           Effect.removeLabel]) := by
  constructor
  · intro he
    simp [handleStrictLGTMPREvent, loadLGTMnotification, h, he]
  · intro hne
    have hbeq : (g5 == sha) = false := by simpa using hne
    simp [handleStrictLGTMPREvent, loadLGTMnotification, h, hbeq]

theorem c7_synchronize_staleness_witness :
    handleStrictLGTMPREvent PRAction.changedSourceBranch (("bot").data) [botComment1]
      (("t2").data) [("a/x.go").data]
      = [writeCommentEffect
          { consentors := [], opponents := [], dirs := genDirs [("a/x.go").data],
            treeHash := ("t2").data, commentID := 7 } false,
         Effect.removeLabel] :=
  (c7_synchronize_staleness (("bot").data) [botComment1] (("t2").data) [("a/x.go").data]
    7 (("alice, **bob**").data) [] (("\n- a").data) (("t1").data) (by decide)).2 (by decide)

/-- C10: whenever some bot comment matches the template, the loaded state
carries that comment's id (also in the stale-rebuild case), and writing the
state updates that very comment instead of creating a new one (given the
forge id is nonzero). -/
theorem c10_carried_comment_id (botname : Str) (raw : List RawComment) (sha : Str)
    (files : List Str) (cid : Nat) (g2 g3 g4 g5 : Str) (v : Bool)
    (h : scanComments botname (listIssueComments raw) = some (cid, g2, g3, g4, g5))
    (hcid : ¬ cid = 0) :
    (loadLGTMnotification botname raw sha files).1.commentID = cid
    ∧ writeCommentEffect (loadLGTMnotification botname raw sha files).1 v
      = Effect.updateComment cid
          (notificationBody (loadLGTMnotification botname raw sha files).1 v) := by
  have hload : (loadLGTMnotification botname raw sha files).1.commentID = cid := by
    cases he : (g5 == sha) with
    | true => simp [loadLGTMnotification, h, he]
    | false => simp [loadLGTMnotification, h, he]
  refine ⟨hload, ?_⟩
  simp [writeCommentEffect, hload, hcid]

theorem c10_carried_comment_id_witness :
    (loadLGTMnotification (("bot").data) [botComment1] (("t1").data)
        [("a/x.go").data]).1.commentID = 7
    ∧ writeCommentEffect
        (loadLGTMnotification (("bot").data) [botComment1] (("t1").data)
          [("a/x.go").data]).1 true
      = Effect.updateComment 7
          (notificationBody
            (loadLGTMnotification (("bot").data) [botComment1] (("t1").data)
              [("a/x.go").data]).1 true) :=
  c10_carried_comment_id (("bot").data) [botComment1] (("t1").data) [("a/x.go").data]
    7 (("alice, **bob**").data) [] (("\n- a").data) (("t1").data) true
    (by decide) (by decide)

/-- C1: the encode/decode round trip is broken for the pending-directory
set.  The reachable state `aliceBobState` (its dirs are exactly
`genDirs ["a/x.go"] = ["a"]`) is encoded by `WriteComment` into
`botComment1` and decoded back by `LoadLGTMnotification` with the same
fingerprint: both identity maps and the fingerprint round-trip, but the
decoded pending-directory list is `["", "a"]` — `strings.Split` of the
`\n- `-prefixed segment contributes a spurious empty entry, so the decoded
set differs from the original `{"a"}`. -/
theorem c1_roundtrip_dirs_gain_empty_entry :
    genDirs [("a/x.go").data] = [("a").data]
    ∧ (loadLGTMnotification (("bot").data) [botComment1] (("t1").data) []).2 = false
    ∧ (loadLGTMnotification (("bot").data) [botComment1] (("t1").data) []).1.consentors
        = aliceBobState.consentors
    ∧ (loadLGTMnotification (("bot").data) [botComment1] (("t1").data) []).1.opponents
        = aliceBobState.opponents
    ∧ (loadLGTMnotification (("bot").data) [botComment1] (("t1").data) []).1.treeHash
        = aliceBobState.treeHash
    ∧ (loadLGTMnotification (("bot").data) [botComment1] (("t1").data) []).1.dirs
        = [[], ("a").data]
    ∧ ¬ ([] : Str) ∈ aliceBobState.dirs := by
  decide

/-! ## Stable sort lemmas for the comment listing -/

theorem insertByCreated_perm (lt : IssueComment → IssueComment → Bool)
    (a : IssueComment) (l : List IssueComment) :
    (insertByCreated lt a l).Perm (a :: l) := by
  induction l with
  | nil => exact List.Perm.refl _
  | cons b t ih =>
    unfold insertByCreated
    by_cases hb : lt b a = true
    · rw [if_pos hb]
      exact (List.Perm.cons b ih).trans (List.Perm.swap a b t)
    · rw [if_neg hb]

theorem stableSortByCreated_perm (lt : IssueComment → IssueComment → Bool)
    (l : List IssueComment) : (stableSortByCreated lt l).Perm l := by
  induction l with
  | nil => exact List.Perm.refl _
  | cons a t ih =>
    exact (insertByCreated_perm lt a (stableSortByCreated lt t)).trans (List.Perm.cons a ih)

theorem insertByCreated_pairwise (a : IssueComment) (l : List IssueComment)
    (h : List.Pairwise (fun x y => x.createdAt ≤ y.createdAt) l) :
    List.Pairwise (fun x y => x.createdAt ≤ y.createdAt)
      (insertByCreated createdBefore a l) := by
  induction l with
  | nil => simp [insertByCreated]
  | cons b t ih =>
    rcases List.pairwise_cons.1 h with ⟨hb, ht⟩
    unfold insertByCreated
    by_cases hlt : createdBefore b a = true
    · have hba : b.createdAt ≤ a.createdAt :=
        Nat.le_of_lt (of_decide_eq_true hlt)
      rw [if_pos hlt]
      refine List.pairwise_cons.2 ⟨?_, ih ht⟩
      intro x hx
      rcases List.mem_cons.1 ((insertByCreated_perm createdBefore a t).mem_iff.1 hx)
        with rfl | hxt
      · exact hba
      · exact hb x hxt
    · have hab : a.createdAt ≤ b.createdAt :=
        Nat.le_of_not_lt (of_decide_eq_false (Bool.of_not_eq_true hlt))
      rw [if_neg hlt]
      refine List.pairwise_cons.2 ⟨?_, h⟩
      intro x hx
      rcases List.mem_cons.1 hx with rfl | hxt
      · exact hab
      · exact Nat.le_trans hab (hb x hxt)

theorem stableSortByCreated_pairwise (l : List IssueComment) :
    List.Pairwise (fun x y => x.createdAt ≤ y.createdAt)
      (stableSortByCreated createdBefore l) := by
  induction l with
  | nil => simp [stableSortByCreated]
  | cons a t ih => exact insertByCreated_pairwise a (stableSortByCreated createdBefore t) ih

/-! ## The locator scan picks the first matching comment -/

theorem scanComments_first (botname : Str) (l : List IssueComment) (cid : Nat)
    (g2 g3 g4 g5 : Str)
    (h : scanComments botname l = some (cid, g2, g3, g4, g5)) :
    ∃ l1 c l2, l = l1 ++ c :: l2
      ∧ (∀ d ∈ l1, matchesNoti botname d = false)
      ∧ matchesNoti botname c = true ∧ c.id = cid := by
  induction l with
  | nil => simp [scanComments] at h
  | cons c rest ih =>
    by_cases hu : (c.user == botname) = true
    · cases hp : parseNotification c.body with
      | some g =>
        have hc : c.id = cid := by
          simp [scanComments, hu, hp] at h
          exact h.1
        exact ⟨[], c, rest, rfl, by simp, by simp [matchesNoti, hu, hp], hc⟩
      | none =>
        have h2 : scanComments botname rest = some (cid, g2, g3, g4, g5) := by
          simpa [scanComments, hu, hp] using h
        rcases ih h2 with ⟨l1, d, l2, hdec, hl1, hd, hid⟩
        exact ⟨c :: l1, d, l2, by rw [hdec, List.cons_append], by
          intro e he
          rcases List.mem_cons.1 he with rfl | hel
          · simp [matchesNoti, hp]
          · exact hl1 e hel, hd, hid⟩
    · have h2 : scanComments botname rest = some (cid, g2, g3, g4, g5) := by
        simpa [scanComments, hu] using h
      rcases ih h2 with ⟨l1, d, l2, hdec, hl1, hd, hid⟩
      exact ⟨c :: l1, d, l2, by rw [hdec, List.cons_append], by
        intro e he
        rcases List.mem_cons.1 he with rfl | hel
        · simp [matchesNoti, hu]
        · exact hl1 e hel, hd, hid⟩

theorem firstMatch_min (botname : Str) (l l1 l2 : List IssueComment) (c : IssueComment)
    (hsorted : List.Pairwise (fun x y => x.createdAt ≤ y.createdAt) l)
    (hdec : l = l1 ++ c :: l2)
    (hl1 : ∀ d ∈ l1, matchesNoti botname d = false) :
    ∀ d ∈ l, matchesNoti botname d = true → c.createdAt ≤ d.createdAt := by
  subst hdec
  intro d hd hmatch
  rcases List.mem_append.1 hd with hdl1 | hdl2
  · rw [hl1 d hdl1] at hmatch
    cases hmatch
  · rcases List.mem_cons.1 hdl2 with rfl | hdl2
    · exact Nat.le_refl _
    · have hc2 := (List.pairwise_append.1 hsorted).2.1
      exact (List.pairwise_cons.1 hc2).1 d hdl2

/-- C3 (amended): the persisted-state locator scans the listed comments in
ascending creation-time order and accepts the FIRST bot-authored comment
matching the template — i.e. the matching comment with the least created
timestamp — and it performs no comparison of updated and created
timestamps: the scan result is unchanged under arbitrary rewrites of every
comment's updated timestamp. -/
theorem c3_locator_oldest_first_no_edit_check (botname : Str) (raw : List RawComment)
    (cid : Nat) (g2 g3 g4 g5 : Str) (upd : RawComment → Nat)
    (h : scanComments botname (listIssueComments raw) = some (cid, g2, g3, g4, g5)) :
    (∃ rc ∈ raw, rc.user = botname ∧ (parseNotification rc.body).isSome = true
      ∧ rc.id = cid
      ∧ ∀ rd ∈ raw, rd.user = botname → (parseNotification rd.body).isSome = true →
          rc.createdAt ≤ rd.createdAt)
    ∧ scanComments botname
        (listIssueComments (raw.map (fun c => { c with updatedAt := upd c })))
        = some (cid, g2, g3, g4, g5) := by
  constructor
  · rcases scanComments_first botname _ cid g2 g3 g4 g5 h with ⟨l1, c, l2, hdec, hl1, hc, hid⟩
    have hmin := firstMatch_min botname _ l1 l2 c (stableSortByCreated_pairwise _) hdec hl1
    have hcmem : c ∈ listIssueComments raw := by
      rw [hdec]
      exact List.mem_append.2 (Or.inr (List.mem_cons_self _ _))
    have hperm := stableSortByCreated_perm createdBefore (raw.map convertPRComment)
    rcases List.mem_map.1 (hperm.mem_iff.1 hcmem) with ⟨rc, hrc, hconv⟩
    have hc2 : c.user = botname ∧ (parseNotification c.body).isSome = true := by
      simpa [matchesNoti] using hc
    refine ⟨rc, hrc, ?_, ?_, ?_, ?_⟩
    · rw [← hconv] at hc2
      exact hc2.1
    · rw [← hconv] at hc2
      exact hc2.2
    · rw [← hconv] at hid
      exact hid
    · intro rd hrd hrduser hrdpars
      have hrdmem : convertPRComment rd ∈ listIssueComments raw :=
        hperm.mem_iff.2 (List.mem_map.2 ⟨rd, hrd, rfl⟩)
      have hmatch : matchesNoti botname (convertPRComment rd) = true := by
        simp [matchesNoti, convertPRComment, hrduser, hrdpars]
      have hle := hmin (convertPRComment rd) hrdmem hmatch
      rw [← hconv] at hle
      exact hle
  · have hmaps : (raw.map (fun c => { c with updatedAt := upd c })).map convertPRComment
        = raw.map convertPRComment := by
      rw [List.map_map]
      exact List.map_congr_left (fun c _ => rfl)
    have hlist : listIssueComments (raw.map (fun c => { c with updatedAt := upd c }))
        = listIssueComments raw := by
      unfold listIssueComments
      rw [hmaps]
    rw [hlist]
    exact h

theorem c3_locator_oldest_first_no_edit_check_witness :
    (∃ rc ∈ [cleanNewComment, editedOldComment],
      rc.user = ("bot").data ∧ (parseNotification rc.body).isSome = true
      ∧ rc.id = 7
      ∧ ∀ rd ∈ [cleanNewComment, editedOldComment],
          rd.user = ("bot").data → (parseNotification rd.body).isSome = true →
            rc.createdAt ≤ rd.createdAt)
    ∧ scanComments (("bot").data)
        (listIssueComments
          ([cleanNewComment, editedOldComment].map (fun c => { c with updatedAt := 0 })))
        = some (7, [], [], [], ("t1").data) :=
  c3_locator_oldest_first_no_edit_check (("bot").data) [cleanNewComment, editedOldComment]
    7 [] [] [] (("t1").data) (fun _ => 0) (by decide)

/-- C3 counterexample: among the listed comments, both `cleanNewComment`
(id 9, created 2, never edited) and `editedOldComment` (id 7, created 1,
edited at 5) are bot comments matching the template, and the locator
selects id 7 — the OLDEST matching comment, and one whose updated timestamp
differs from its created timestamp.  Under the claim (scan most-recent
first, accept only comments with updated = created) it would have to select
id 9. -/
theorem c3_locator_counterexample :
    scanComments (("bot").data) (listIssueComments [cleanNewComment, editedOldComment])
      = some (7, [], [], [], ("t1").data)
    ∧ matchesNoti (("bot").data) (convertPRComment cleanNewComment) = true
    ∧ editedOldComment.createdAt < cleanNewComment.createdAt
    ∧ ¬ editedOldComment.updatedAt = editedOldComment.createdAt := by
  decide

/-! ## Command-line matching: regex semantics versus the spec reading -/

theorem lowerFold_ws_fix (c : Char) (h : goWs c = true) : lowerFold c = c := by
  simp only [goWs, Bool.or_eq_true, beq_iff_eq] at h
  rcases h with ((((rfl | rfl) | rfl) | rfl) | rfl) <;> decide

theorem dropWhile_append_all {α : Type} (p : α → Bool) (w t : List α)
    (hw : w.all p = true) : (w ++ t).dropWhile p = t.dropWhile p := by
  induction w with
  | nil => rfl
  | cons a w2 ih =>
    rw [List.all_cons, Bool.and_eq_true] at hw
    rw [List.cons_append, List.dropWhile_cons_of_pos hw.1]
    exact ih hw.2

theorem dropTrailWs_append_ws (l1 w : Str) (hw : w.all goWs = true)
    (hl1 : ∀ z, l1.reverse.head? = some z → goWs z = false) :
    dropTrailWs (l1 ++ w) = l1 := by
  unfold dropTrailWs
  rw [List.reverse_append]
  rw [dropWhile_append_all goWs w.reverse l1.reverse (by simpa using hw)]
  cases hrev : l1.reverse with
  | nil =>
    have : l1 = [] := by simpa using congrArg List.reverse hrev
    simp [this]
  | cons z t =>
    have hz : goWs z = false := hl1 z (by rw [hrev]; rfl)
    rw [List.dropWhile_cons_of_neg (by simp [hz]), ← hrev, List.reverse_reverse]

theorem dropTrailWs_decomp (l : Str) : dropTrailWs l ++ wsSuffixOf l = l := by
  rw [dropTrailWs, wsSuffixOf, ← List.reverse_append, List.takeWhile_append_dropWhile,
    List.reverse_reverse]

theorem wsSuffixOf_all (l : Str) : (wsSuffixOf l).all goWs = true := by
  rw [wsSuffixOf, List.all_eq_true]
  intro x hx
  exact List.mem_takeWhile_imp (List.mem_reverse.1 hx)

theorem matchCmdLine_iff (cmd : Str) : ∀ l : Str,
    matchCmdLine cmd l = true
      ↔ ∃ l1 w, l = l1 ++ w ∧ l1.map lowerFold = cmd ∧ w.all goWs = true := by
  induction cmd with
  | nil =>
    intro l
    constructor
    · intro h
      exact ⟨[], l, rfl, rfl, h⟩
    · rintro ⟨l1, w, rfl, hmap, hall⟩
      have : l1 = [] := List.map_eq_nil_iff.1 hmap
      subst this
      simpa [matchCmdLine] using hall
  | cons p ps ih =>
    intro l
    cases l with
    | nil =>
      rw [show matchCmdLine (p :: ps) [] = false from rfl]
      simp only [Bool.false_eq_true, false_iff]
      rintro ⟨l1, w, hnil, hmap, _⟩
      rcases List.append_eq_nil.1 hnil.symm with ⟨h1, _⟩
      subst h1
      simp at hmap
    | cons d ds =>
      simp only [matchCmdLine, Bool.and_eq_true, beq_iff_eq, ih ds]
      constructor
      · rintro ⟨hd, l1, w, rfl, hmap, hall⟩
        exact ⟨d :: l1, w, rfl, by simp [hd, hmap], hall⟩
      · rintro ⟨l1, w, heq, hmap, hall⟩
        cases l1 with
        | nil => simp at hmap
        | cons e l2 =>
          rcases List.cons_eq_cons.1 heq with ⟨rfl, hds⟩
          rcases List.cons_eq_cons.1 hmap with ⟨hfold, hmap2⟩
          exact ⟨hfold, l2, w, hds, hmap2, hall⟩

theorem matchCmdLine_iff_lineIsCmd (cmd : Str)
    (hlast : ∀ z, cmd.reverse.head? = some z → goWs z = false) (l : Str) :
    matchCmdLine cmd l = true ↔ lineIsCmd cmd l := by
  rw [matchCmdLine_iff]
  constructor
  · rintro ⟨l1, w, rfl, hmap, hall⟩
    have hl1 : ∀ z, l1.reverse.head? = some z → goWs z = false := by
      intro z hz
      have hmr : cmd.reverse.head? = some (lowerFold z) := by
        rw [← hmap, ← List.map_reverse, List.head?_map, hz]
        rfl
      have hfold := hlast (lowerFold z) hmr
      by_contra hzz
      have hzt : goWs z = true := by
        cases h2 : goWs z
        · exact absurd h2 hzz
        · rfl
      rw [lowerFold_ws_fix z hzt] at hfold
      rw [hzt] at hfold
      cases hfold
    rw [lineIsCmd, dropTrailWs_append_ws l1 w hall hl1]
    exact hmap
  · intro h
    exact ⟨dropTrailWs l, wsSuffixOf l, (dropTrailWs_decomp l).symm, h, wsSuffixOf_all l⟩

/-- C9 (amended): command classification is per-line: `doWhat` reports an
approve command iff SOME newline-separated line of the body, after removing
trailing whitespace and case folding, is exactly `/lgtm` or
`/lgtm no-issue`; it reports a cancel command iff no line is an approve
command and some line is `/lgtm cancel`.  (The `(?m)` flag of the regexes
matches any line, not the whole trimmed body.) -/
theorem c9_doWhat_per_line (body : Str) :
    ((doWhat body).1 = true ↔ ∃ l ∈ splitNl body,
        lineIsCmd (("/lgtm").data) l ∨ lineIsCmd (("/lgtm no-issue").data) l)
    ∧ ((doWhat body).2 = true ↔
        (¬ ∃ l ∈ splitNl body,
            lineIsCmd (("/lgtm").data) l ∨ lineIsCmd (("/lgtm no-issue").data) l)
        ∧ ∃ l ∈ splitNl body, lineIsCmd (("/lgtm cancel").data) l) := by
  have hw1 : ∀ z, (("/lgtm").data).reverse.head? = some z → goWs z = false := by
    intro z hz
    rw [show (("/lgtm").data).reverse.head? = some 'm' from rfl] at hz
    cases hz
    decide
  have hw2 : ∀ z, (("/lgtm no-issue").data).reverse.head? = some z → goWs z = false := by
    intro z hz
    rw [show (("/lgtm no-issue").data).reverse.head? = some 'e' from rfl] at hz
    cases hz
    decide
  have hw3 : ∀ z, (("/lgtm cancel").data).reverse.head? = some z → goWs z = false := by
    intro z hz
    rw [show (("/lgtm cancel").data).reverse.head? = some 'l' from rfl] at hz
    cases hz
    decide
  have hA : lgtmReMatch body = true ↔ ∃ l ∈ splitNl body,
      lineIsCmd (("/lgtm").data) l ∨ lineIsCmd (("/lgtm no-issue").data) l := by
    rw [lgtmReMatch, List.any_eq_true]
    exact exists_congr fun l => and_congr_right fun _ => by
      rw [Bool.or_eq_true, matchCmdLine_iff_lineIsCmd _ hw1 l,
        matchCmdLine_iff_lineIsCmd _ hw2 l]
  have hC : lgtmCancelReMatch body = true ↔ ∃ l ∈ splitNl body,
      lineIsCmd (("/lgtm cancel").data) l := by
    rw [lgtmCancelReMatch, List.any_eq_true]
    exact exists_congr fun l => and_congr_right fun _ =>
      matchCmdLine_iff_lineIsCmd _ hw3 l
  have h1 : (doWhat body).1 = lgtmReMatch body := by
    unfold doWhat
    by_cases ha : lgtmReMatch body = true
    · simp [ha]
    · by_cases hc : lgtmCancelReMatch body = true <;> simp [ha, hc]
  have h2 : (doWhat body).2 = (!(lgtmReMatch body) && lgtmCancelReMatch body) := by
    unfold doWhat
    by_cases ha : lgtmReMatch body = true
    · simp [ha]
    · by_cases hc : lgtmCancelReMatch body = true <;> simp [ha, hc]
  constructor
  · rw [h1]
    exact hA
  · rw [h2, Bool.and_eq_true]
    apply and_congr
    · rw [← hA]
      constructor
      · intro hf ht
        rw [ht] at hf
        cases hf
      · intro hn
        cases hq : lgtmReMatch body
        · simp
        · exact absurd hq hn
    · exact hC

/-- C9 counterexample: the body `x\n/lgtm` is classified as an approve
command although, trimmed as a whole, it is none of the three command
forms — the claim's "full trimmed line" grammar would classify it as not a
command. -/
theorem c9_multiline_counterexample :
    doWhat (("x\n/lgtm").data) = (true, false)
    ∧ ¬ (fullTrimWs (("x\n/lgtm").data)).map lowerFold = ("/lgtm").data
    ∧ ¬ (fullTrimWs (("x\n/lgtm").data)).map lowerFold = ("/lgtm no-issue").data
    ∧ ¬ (fullTrimWs (("x\n/lgtm").data)).map lowerFold = ("/lgtm cancel").data := by
  decide

/-- C6 counterexample: the commenter `alice` is listed by the OWNERS data
for the changed path `a/x.go` (an authorized reviewer in the spec sense)
and is not the PR author, yet her cancel command is handled by the
unauthorized branch: she is recorded as an opponent with flag FALSE, and
the label is not removed although it is present — because `isReviewer`
normalizes every login to the empty string. -/
theorem c6_cancel_counterexample :
    [(("a/x.go").data, [("alice").data])].any
        (fun p => p.2.contains (("alice").data)) = true
    ∧ isReviewer [(("a/x.go").data, [("alice").data])] (("alice").data) = false
    ∧ lookupKey (handleLGTMCancel (("root").data) (("alice").data)
        [(("a/x.go").data, [("alice").data])] stateT1 true).1.opponents (("alice").data)
      = some false
    ∧ (handleLGTMCancel (("root").data) (("alice").data)
        [(("a/x.go").data, [("alice").data])] stateT1 true).2.contains
        Effect.removeLabel = false := by
  decide
